import Mathlib

/-!
# Verification of `example/run_ppo_vector_multi.py`

A shallow embedding of the PPO training driver script
`example/run_ppo_vector_multi.py` of the `machina` repository.

The script is a linear procedure: parse CLI arguments, set up log
directories, initialize the distributed process group, seed the RNGs,
build the environment / policy / value function / sampler / optimizers,
then run a training loop (sample, GAE preprocessing, PPO update,
logging, checkpointing).  We embed it as a trace-producing interpreter:
every call into the external framework or the OS becomes an event `Ev`,
the mutable loop variables become a `LoopState`, and the data the
sampler and the PPO trainers return — which is external to the script —
is an explicit input (`IterData`).  Python exceptions raised by the
script's own computations (the per-path mean-reward computation) become
`Except` errors.  Floating point rewards are modelled by rationals: no
claim below depends on rounding, only on comparisons and definedness.
-/

namespace RunPPO

/-- The CLI arguments of the script (lines 41-70).  `argparse` types
`int` become `Int`, `float` become `ℚ`, `str` become `String`;
`--record` is `store_true`.  `--local_rank` has no default and is
effectively required (the script adds 23 to it), so it is a plain
field. -/
structure Args where
  log : String
  env_name : String
  record : Bool
  episode : Int
  seed : Int
  max_episodes : Int
  num_parallel : Int
  local_rank : Int
  world_size : Int
  max_samples_per_iter : Int
  epoch_per_iter : Int
  batch_size : Int
  pol_lr : ℚ
  vf_lr : ℚ
  ent_beta : ℚ
  h_size : Int
  cell_size : Int
  ppo_type : String
  clip_param : ℚ
  kl_targ : ℚ
  init_kl_beta : ℚ
  gamma : ℚ
  lam : ℚ
deriving DecidableEq, Repr

/-- The parser defaults (lines 41-69), with `--local_rank 0`. -/
def defaultArgs : Args where
  log := "garbage"
  env_name := "Pendulum-v0"
  record := false
  episode := 1000000
  seed := 256
  max_episodes := 1000000
  num_parallel := 4
  local_rank := 0
  world_size := 4
  max_samples_per_iter := 2048
  epoch_per_iter := 4
  batch_size := 8
  pol_lr := 3/10000
  vf_lr := 3/10000
  ent_beta := 1/100
  h_size := 1024
  cell_size := 512
  ppo_type := "clip"
  clip_param := 1/5
  kl_targ := 1/100
  init_kl_beta := 1
  gamma := 995/1000
  lam := 1

/-- `argparse` validation of the `--ppo_type` flag:
`parser.add_argument('--ppo_type', type=str, choices=['clip', 'kl'], ...)`
(line 61).  `argparse` accepts a value exactly when it is a member of
`choices`, and otherwise fails the parse with an "invalid choice"
error. -/
def parsePpoType (s : String) : Except String String :=
  if s ∈ ["clip", "kl"] then .ok s else .error "invalid choice"

/-- `os.path.join` for the paths the script builds (no trailing
slashes appear in them). -/
def pjoin (a b : String) : String := a ++ "/" ++ b

/-- `os.path.join(args.log, 'models', name)`. -/
def modelPath (a : Args) (name : String) : String :=
  pjoin (pjoin a.log "models") name

/-- `args.seed = args.seed * (args.local_rank + 23)` (line 83): the
effective seed of one process. -/
def derivedSeed (seed rank : Int) : Int := seed * (rank + 23)

/-- The externally visible calls the script makes, in program order:
filesystem operations, distributed/RNG/device configuration, framework
object construction, and the per-iteration sampling / preprocessing /
training / logging / checkpointing calls. -/
inductive Ev where
  | mkdir (path : String)
  | writeFile (path : String)
  | pprintArgs
  | initProcessGroup (backend : String) (world_size : Int) (rank : Int)
  | numpySeed (s : Int)
  | torchManualSeed (s : Int)
  | setNumThreads (n : Nat)
  | setDevice (rank : Int)
  | addTabularOutput (path : String)
  | envCreate (name : String) (log_dir : String) (record : Bool)
  | envSeed (s : Int)
  | buildPolNet (h_size cell_size : Int)
  | buildPol
  | buildVfNet (h_size cell_size : Int)
  | buildVf
  | samplerCreate (max_samples num_parallel : Int) (s : Int)
  | optimCreate (which : String) (rank : Int) (world_size : Int) (lr : ℚ)
  | sample
  | gaePreprocess (gamma lam : ℚ) (centerize : Bool)
  | ppoClipTrain (clip_param : ℚ)
  | ppoKlTrain (kl_beta kl_targ : ℚ)
  | recordResults
  | torchSave (path : String)
deriving DecidableEq, Repr

/-- The setup phase of the script (lines 72-113), as the trace of its
calls.  `logExists` and `modelsExists` are the results of the two
`os.path.exists` checks.  The seed-bearing calls carry the value of
`args.seed` after the mutation on line 83. -/
def setupEvs (a : Args) (logExists modelsExists : Bool) : List Ev :=
  (if logExists then [] else [.mkdir a.log]) ++
  [.writeFile (pjoin a.log "args.json")] ++
  (if a.local_rank = 0 then [.pprintArgs] else []) ++
  (if modelsExists then [] else [.mkdir (pjoin a.log "models")]) ++
  [.initProcessGroup "nccl" a.world_size a.local_rank,
   .numpySeed (derivedSeed a.seed a.local_rank),
   .torchManualSeed (derivedSeed a.seed a.local_rank),
   .setNumThreads 1,
   .setDevice a.local_rank,
   .addTabularOutput (pjoin a.log "progress.csv"),
   .envCreate a.env_name (pjoin a.log "movie") a.record,
   .envSeed (derivedSeed a.seed a.local_rank),
   .buildPolNet a.h_size a.cell_size,
   .buildPol,
   .buildVfNet a.h_size a.cell_size,
   .buildVf,
   .samplerCreate a.max_samples_per_iter a.num_parallel
     (derivedSeed a.seed a.local_rank),
   .optimCreate "pol" a.local_rank a.world_size a.pol_lr,
   .optimCreate "vf" a.local_rank a.world_size a.vf_lr]

/-- One rollout path as the loop reads it: the `dones` mask and the
`rews` array. -/
structure Path where
  dones : List Int
  rews : List ℚ
deriving DecidableEq, Repr

/-- What one iteration receives from the external framework: the
sampled `paths`, `data.num_epi` from `GAEVectorData`, and the
`'new_kl_beta'` entry of the result dict of `ppo_kl.train`. -/
structure IterData where
  paths : List Path
  num_epi : Nat
  new_kl_beta : ℚ
deriving DecidableEq, Repr

/-- The mutable variables of the training loop (lines 115-118). -/
structure LoopState where
  total_epi : Int
  total_step : Int
  max_rew : ℚ
  kl_beta : ℚ
deriving DecidableEq, Repr

/-- `total_epi = 0; total_step = 0; max_rew = -1e6;
kl_beta = args.init_kl_beta`. -/
def initState (a : Args) : LoopState :=
  { total_epi := 0, total_step := 0, max_rew := -1000000,
    kl_beta := a.init_kl_beta }

/-- The two Python exceptions the loop's own computation can raise:
`IndexError` (indexing an empty index array, or `paths[0]` on an empty
path list) and `ZeroDivisionError`. -/
inductive RewErr where
  | indexError
  | divByZero
deriving DecidableEq, Repr

/-- `inds = np.arange(len(mask)); inds = inds[mask == 1]` (lines
137-138): the indices of the entries of the mask equal to 1, in
order. -/
def doneInds (mask : List Int) : List Nat :=
  ((List.enumFrom 0 mask).filter (fun p => p.2 == 1)).map Prod.fst

/-- Lines 136-140 for one path:
`num_epi = len(inds) - 1;
 rewards.append(sum(path['rews'][inds[0]:inds[-1]]) / num_epi)`.
`inds[0]` on an empty `inds` raises `IndexError`; when `inds` has a
single element `num_epi` is `0`, the slice `rews[inds[0]:inds[-1]]` is
empty, `sum` returns the integer `0`, and `0 / 0` raises
`ZeroDivisionError`.  `rest.getLastD i0` is `inds[-1]`, and
`rest.length` is `num_epi = len(inds) - 1`. -/
def pathMeanRew (p : Path) : Except RewErr ℚ :=
  match doneInds p.dones with
  | [] => .error .indexError
  | i0 :: rest =>
    if rest.length = 0 then .error .divByZero
    else .ok (((p.rews.drop i0).take (rest.getLastD i0 - i0)).sum /
              (rest.length : ℚ))

/-- The `rewards` list of one iteration (the `for path in paths` loop,
lines 134-140): the per-path values in order; the loop aborts at the
first path whose computation raises. -/
def iterRewards : List Path → Except RewErr (List ℚ)
  | [] => .ok []
  | p :: ps =>
    match pathMeanRew p with
    | .error e => .error e
    | .ok r =>
      match iterRewards ps with
      | .error e => .error e
      | .ok rs => .ok (r :: rs)

/-- `np.mean` of a list of rationals. -/
def meanQ (rs : List ℚ) : ℚ := rs.sum / (rs.length : ℚ)

/-- `mean_rew = np.mean(rewards)` of one iteration. -/
def iterMeanRew (d : IterData) : Except RewErr ℚ :=
  (iterRewards d.paths).map meanQ

/-- The four most-recent checkpoint paths (lines 156-159). -/
def lastSaves (a : Args) : List String :=
  [modelPath a "pol_last.pkl", modelPath a "vf_last.pkl",
   modelPath a "optim_pol_last.pkl", modelPath a "optim_vf_last.pkl"]

/-- The four best-reward checkpoint paths (lines 150-153). -/
def maxSaves (a : Args) : List String :=
  [modelPath a "pol_max.pkl", modelPath a "vf_max.pkl",
   modelPath a "optim_pol_max.pkl", modelPath a "optim_vf_max.pkl"]

/-- One iteration of the training loop body (lines 120-160): sampling,
GAE preprocessing, the PPO update dispatched on `args.ppo_type`, the
counters, the per-path rewards, logging and checkpointing on rank 0.
Returns the updated loop state and the iteration's event trace, or the
exception the reward computation raises (`paths[0]` on line 132 and the
rewards loop on lines 135-140). -/
def iterBody (a : Args) (st : LoopState) (d : IterData) :
    Except RewErr (LoopState × List Ev) :=
  match d.paths with
  | [] => .error .indexError
  | p0 :: _ =>
    match iterRewards d.paths with
    | .error e => .error e
    | .ok rews =>
      .ok ({ total_epi := st.total_epi + d.num_epi,
             total_step := st.total_step +
               d.paths.length * p0.rews.length * a.world_size,
             max_rew :=
               if a.local_rank = 0 ∧ st.max_rew < meanQ rews then meanQ rews
               else st.max_rew,
             kl_beta :=
               if a.ppo_type = "clip" then st.kl_beta else d.new_kl_beta },
           [.sample, .gaePreprocess a.gamma a.lam true] ++
           (if a.ppo_type = "clip" then [.ppoClipTrain a.clip_param]
            else [.ppoKlTrain st.kl_beta a.kl_targ]) ++
           (if a.local_rank = 0 then [.recordResults] else []) ++
           (if a.local_rank = 0 then
              (if st.max_rew < meanQ rews then
                 (maxSaves a).map Ev.torchSave else []) ++
              (lastSaves a).map Ev.torchSave
            else []))

/-- The training loop `while args.max_episodes > total_epi` (lines
119-160).  The external per-iteration data is consumed from a list;
the loop stops when the guard fails (or the supplied data runs out),
and propagates the exception of an iteration that raises. -/
def runLoop (a : Args) : LoopState → List IterData →
    Except RewErr (LoopState × List Ev)
  | st, [] => .ok (st, [])
  | st, d :: ds =>
    if st.total_epi < a.max_episodes then
      match iterBody a st d with
      | .error e => .error e
      | .ok (st', evs) =>
        match runLoop a st' ds with
        | .error e => .error e
        | .ok (stF, evsF) => .ok (stF, evs ++ evsF)
    else .ok (st, [])

/-- The whole script: the setup trace followed by the loop trace. -/
def runScript (a : Args) (logExists modelsExists : Bool)
    (ds : List IterData) : Except RewErr (List Ev) :=
  match runLoop a (initState a) ds with
  | .error e => .error e
  | .ok (_, levs) => .ok (setupEvs a logExists modelsExists ++ levs)

/-- The program-order phase of an event: argument/directory/logging
configuration (0), distributed process-group initialization (1), RNG
seeding (2), device/thread/logger configuration (3), construction of
environment, policy, value function, sampler and optimizers (4), and
the loop stages sample (10), preprocess (11), PPO update (12), logging
(13), checkpointing (14). -/
def phase : Ev → Nat
  | .mkdir _ => 0
  | .writeFile _ => 0
  | .pprintArgs => 0
  | .initProcessGroup _ _ _ => 1
  | .numpySeed _ => 2
  | .torchManualSeed _ => 2
  | .setNumThreads _ => 3
  | .setDevice _ => 3
  | .addTabularOutput _ => 3
  | .envCreate _ _ _ => 4
  | .envSeed _ => 4
  | .buildPolNet _ _ => 4
  | .buildPol => 4
  | .buildVfNet _ _ => 4
  | .buildVf => 4
  | .samplerCreate _ _ _ => 4
  | .optimCreate _ _ _ _ => 4
  | .sample => 10
  | .gaePreprocess _ _ _ => 11
  | .ppoClipTrain _ => 12
  | .ppoKlTrain _ _ => 12
  | .recordResults => 13
  | .torchSave _ => 14

/-- The path an event creates on disk, when it creates one: directories
made by `os.mkdir`, the `args.json` dump, the CSV the logger is told to
write, and the `torch.save` targets. -/
def producedPath : Ev → Option String
  | .mkdir p => some p
  | .writeFile p => some p
  | .addTabularOutput p => some p
  | .torchSave p => some p
  | _ => none

/-- All paths a trace creates on disk. -/
def producedPaths (evs : List Ev) : List String := evs.filterMap producedPath

/-- The output files the specification lists: the run-arguments JSON,
the progress CSV, and the eight checkpoint files under
`<log>/models`. -/
def claimedOutputs (a : Args) : List String :=
  [pjoin a.log "args.json", pjoin a.log "progress.csv"] ++
  maxSaves a ++ lastSaves a

/-- The mean rewards of the iterations the loop actually executes, in
order (the values `mean_rew` takes on line 141), mirroring the
recursion of `runLoop`. -/
def loopMeanRews (a : Args) : LoopState → List IterData → List ℚ
  | _, [] => []
  | st, d :: ds =>
    if st.total_epi < a.max_episodes then
      match iterBody a st d, iterRewards d.paths with
      | .ok (st', _), .ok rews => meanQ rews :: loopMeanRews a st' ds
      | _, _ => []
    else []

/-- Concrete iteration data used to exercise the loop: one path whose
episode boundaries are well formed (two done flags). -/
def d1 : IterData :=
  { paths := [{ dones := [1, 1], rews := [1, 1] }],
    num_epi := 1, new_kl_beta := 1 }

/-- Concrete iteration data whose path list is empty, so the step and
reward computations of the loop raise. -/
def dBad : IterData := { paths := [], num_epi := 5, new_kl_beta := 1 }

/-- The default arguments with a two-episode budget and rank 1 (rank 1
neither logs nor checkpoints, keeping its traces short). -/
def argsSmall : Args := { defaultArgs with max_episodes := 2, local_rank := 1 }

/-- The loop state after running `iterBody defaultArgs (initState
defaultArgs) d1`: one episode, eight steps sampled on four workers, the
running maximum reward raised to the iteration's mean reward 1. -/
def w1st : LoopState :=
  { total_epi := 1, total_step := 8, max_rew := 1, kl_beta := 1 }

/-- The event trace of `iterBody defaultArgs (initState defaultArgs)
d1`: sample, preprocess, clip update, logging, then the four best and
four most-recent checkpoints. -/
def w1evs : List Ev :=
  [.sample, .gaePreprocess (995/1000) 1 true, .ppoClipTrain (1/5),
   .recordResults] ++
  (maxSaves defaultArgs ++ lastSaves defaultArgs).map Ev.torchSave

/-- The loop state after `runLoop argsSmall (initState argsSmall)
[d1, d1, d1]`: the guard stops the loop after two of the three
iterations. -/
def w3st : LoopState :=
  { total_epi := 2, total_step := 16, max_rew := -1000000, kl_beta := 1 }

/-- The event trace of `runLoop argsSmall (initState argsSmall)
[d1, d1, d1]`: two iterations of sample / preprocess / update, with no
rank-0 logging or checkpointing. -/
def w3evs : List Ev :=
  [.sample, .gaePreprocess (995/1000) 1 true, .ppoClipTrain (1/5),
   .sample, .gaePreprocess (995/1000) 1 true, .ppoClipTrain (1/5)]

/-- The setup trace of a default-argument run on a fresh directory. -/
def c7trace : List Ev := setupEvs defaultArgs false false

/-! ## Helper lemmas -/

lemma enumFrom_filter_length (m : List Int) : ∀ n : Nat,
    ((List.enumFrom n m).filter (fun p => p.2 == 1)).length = m.count 1 := by
  induction m with
  | nil => intro n; rfl
  | cons a l ih =>
    intro n
    show (((n, a) :: List.enumFrom (n + 1) l).filter
      (fun p => p.2 == 1)).length = _
    rw [List.filter_cons]
    by_cases h : a = 1
    · subst h; simp [ih, List.count_cons]
    · simp [h, ih, List.count_cons]

/-- The number of selected indices equals the number of done flags
equal to 1. -/
lemma doneInds_length (m : List Int) : (doneInds m).length = m.count 1 := by
  simpa [doneInds] using enumFrom_filter_length m 0

/-- A failing `rewards` loop names a failing path. -/
lemma iterRewards_error_mem {ps : List Path} {e : RewErr}
    (h : iterRewards ps = .error e) :
    ∃ p ∈ ps, pathMeanRew p = .error e := by
  induction ps with
  | nil => simp [iterRewards] at h
  | cons p ps ih =>
    rw [iterRewards] at h
    rcases hp : pathMeanRew p with e' | r <;> rw [hp] at h
    · cases h; exact ⟨p, by simp, hp⟩
    · rcases hq : iterRewards ps with e' | rs <;> rw [hq] at h
      · cases h
        obtain ⟨q, hq1, hq2⟩ := ih hq
        exact ⟨q, by simp [hq1], hq2⟩
      · cases h

/-- Inversion of a successful loop iteration: the shape of the new
state and of the event trace. -/
lemma iterBody_ok {a : Args} {st : LoopState} {d : IterData}
    {st' : LoopState} {evs : List Ev}
    (h : iterBody a st d = .ok (st', evs)) :
    ∃ p0 ps rews, d.paths = p0 :: ps ∧ iterRewards d.paths = .ok rews ∧
      st' = { total_epi := st.total_epi + d.num_epi,
              total_step := st.total_step +
                d.paths.length * p0.rews.length * a.world_size,
              max_rew :=
                if a.local_rank = 0 ∧ st.max_rew < meanQ rews then meanQ rews
                else st.max_rew,
              kl_beta :=
                if a.ppo_type = "clip" then st.kl_beta
                else d.new_kl_beta } ∧
      evs = [.sample, .gaePreprocess a.gamma a.lam true] ++
            (if a.ppo_type = "clip" then [.ppoClipTrain a.clip_param]
             else [.ppoKlTrain st.kl_beta a.kl_targ]) ++
            (if a.local_rank = 0 then [.recordResults] else []) ++
            (if a.local_rank = 0 then
               (if st.max_rew < meanQ rews then
                  (maxSaves a).map Ev.torchSave else []) ++
               (lastSaves a).map Ev.torchSave
             else []) := by
  rcases hp : d.paths with _ | ⟨p0, ps⟩
  · simp [iterBody, hp] at h
  · rcases hr : iterRewards d.paths with e | rews
    · simp [iterBody, hp, hp ▸ hr] at h
    · have hr' : iterRewards (p0 :: ps) = .ok rews := hp ▸ hr
      simp only [iterBody, hp, hr', Except.ok.injEq, Prod.mk.injEq] at h
      exact ⟨p0, ps, rews, rfl, hr', h.1.symm, h.2.symm⟩

/-- Appending on the left of a string is injective. -/
lemma append_left_cancel {s t₁ t₂ : String} (h : s ++ t₁ = s ++ t₂) :
    t₁ = t₂ := by
  have hd := congrArg String.data h
  simp only [String.data_append] at hd
  exact String.ext (List.append_cancel_left hd)

/-- Distinct file names give distinct checkpoint paths. -/
lemma modelPath_inj {a : Args} {n₁ n₂ : String}
    (h : modelPath a n₁ = modelPath a n₂) : n₁ = n₂ := by
  simp only [modelPath, pjoin] at h
  exact append_left_cancel h

/-- No best-reward checkpoint path is a most-recent checkpoint path. -/
lemma maxSaves_ne_lastSaves {a : Args} {x y : String}
    (hx : x ∈ maxSaves a) (hy : y ∈ lastSaves a) : x ≠ y := by
  simp only [maxSaves, lastSaves, List.mem_cons, List.not_mem_nil,
    or_false] at hx hy
  rcases hx with rfl | rfl | rfl | rfl <;> rcases hy with rfl | rfl | rfl | rfl <;>
    exact fun h => absurd (modelPath_inj h) (by decide)

/-- Folding `max` never goes below the start value. -/
lemma le_foldl_max (init : ℚ) (l : List ℚ) : init ≤ l.foldl max init := by
  induction l generalizing init with
  | nil => simp
  | cons x l ih =>
    simpa using le_trans (le_max_left init x) (ih (max init x))

/-- When the episode budget is already exhausted the loop does not run:
the state is unchanged and no event happens. -/
lemma runLoop_stop {a : Args} {st : LoopState}
    (h : a.max_episodes ≤ st.total_epi) (ds : List IterData) :
    runLoop a st ds = .ok (st, []) := by
  cases ds with
  | nil => rfl
  | cons d ds => rw [runLoop, if_neg (by omega)]

/-- Either the loop stopped because the budget was reached, or every
supplied iteration ran and contributed at least one episode. -/
lemma runLoop_epi_bound {a : Args} :
    ∀ (ds : List IterData) (st stF : LoopState) (evs : List Ev),
      (∀ d ∈ ds, 1 ≤ d.num_epi) → runLoop a st ds = .ok (stF, evs) →
      a.max_episodes ≤ stF.total_epi ∨
        st.total_epi + ds.length ≤ stF.total_epi := by
  intro ds
  induction ds with
  | nil =>
    intro st stF evs _ h
    simp only [runLoop, Except.ok.injEq, Prod.mk.injEq] at h
    obtain ⟨rfl, rfl⟩ := h
    right; simp
  | cons d ds ih =>
    intro st stF evs hall h
    rw [runLoop] at h
    by_cases hg : st.total_epi < a.max_episodes
    · rw [if_pos hg] at h
      rcases hb : iterBody a st d with e | ⟨st', ievs⟩ <;> rw [hb] at h <;>
        dsimp only at h
      · cases h
      · rcases hl : runLoop a st' ds with e | ⟨stF', evsF⟩ <;> rw [hl] at h <;>
          dsimp only at h
        · cases h
        · simp only [Except.ok.injEq, Prod.mk.injEq] at h
          obtain ⟨rfl, rfl⟩ := h
          obtain ⟨p0, ps, rews, hp, hr, hst', hevs⟩ := iterBody_ok hb
          have hst : st'.total_epi = st.total_epi + d.num_epi := by rw [hst']
          have hd1 : 1 ≤ d.num_epi := hall d (by simp)
          rcases ih st' stF' evsF (fun x hx => hall x (by simp [hx])) hl
            with h2 | h2
          · left; exact h2
          · right; simp only [List.length_cons]; omega
    · rw [if_neg hg] at h
      simp only [Except.ok.injEq, Prod.mk.injEq] at h
      obtain ⟨rfl, rfl⟩ := h
      left; omega

/-- Inversion of a loop step whose guard holds. -/
lemma runLoop_cons_ok {a : Args} {st : LoopState} {d : IterData}
    {ds : List IterData} {stF : LoopState} {evs : List Ev}
    (hg : st.total_epi < a.max_episodes)
    (h : runLoop a st (d :: ds) = .ok (stF, evs)) :
    ∃ st' ievs evsF, iterBody a st d = .ok (st', ievs) ∧
      runLoop a st' ds = .ok (stF, evsF) ∧ evs = ievs ++ evsF := by
  rw [runLoop, if_pos hg] at h
  rcases hb : iterBody a st d with e | ⟨st', ievs⟩ <;> rw [hb] at h <;>
    dsimp only at h
  · cases h
  · rcases hl : runLoop a st' ds with e | ⟨stF', evsF⟩ <;> rw [hl] at h <;>
      dsimp only at h
    · cases h
    · simp only [Except.ok.injEq, Prod.mk.injEq] at h
      obtain ⟨rfl, rfl⟩ := h
      exact ⟨st', ievs, evsF, rfl, hl, rfl⟩

/-- Inversion of a successful whole-script run. -/
lemma runScript_ok {a : Args} {lE mE : Bool} {ds : List IterData}
    {evs : List Ev} (h : runScript a lE mE ds = .ok evs) :
    ∃ stF levs, runLoop a (initState a) ds = .ok (stF, levs) ∧
      evs = setupEvs a lE mE ++ levs := by
  rw [runScript] at h
  rcases hl : runLoop a (initState a) ds with e | ⟨stF, levs⟩ <;>
    rw [hl] at h <;> dsimp only at h
  · cases h
  · injection h with h
    exact ⟨stF, levs, rfl, h.symm⟩

/-- A failing iteration names an empty path list or a failing path. -/
lemma iterBody_error {a : Args} {st : LoopState} {d : IterData} {e : RewErr}
    (h : iterBody a st d = .error e) :
    d.paths = [] ∨ ∃ p ∈ d.paths, pathMeanRew p = .error e := by
  rcases hp : d.paths with _ | ⟨p0, ps⟩
  · exact Or.inl rfl
  · right
    rcases hr : iterRewards d.paths with e' | rews
    · have h' : e' = e := by
        simp only [iterBody, hp, hp ▸ hr] at h
        injection h
      rw [← h']
      exact hp ▸ iterRewards_error_mem (hp ▸ hr)
    · simp [iterBody, hp, hp ▸ hr] at h

/-- A failing loop run names a failing iteration among the supplied
data. -/
lemma runLoop_error_mem {a : Args} :
    ∀ (ds : List IterData) (st : LoopState) (e : RewErr),
      runLoop a st ds = .error e →
      ∃ d ∈ ds, d.paths = [] ∨ ∃ p ∈ d.paths, pathMeanRew p = .error e := by
  intro ds
  induction ds with
  | nil => intro st e h; simp [runLoop] at h
  | cons d ds ih =>
    intro st e h
    rw [runLoop] at h
    by_cases hg : st.total_epi < a.max_episodes
    · rw [if_pos hg] at h
      rcases hb : iterBody a st d with e' | ⟨st', ievs⟩ <;> rw [hb] at h <;>
        dsimp only at h
      · obtain rfl : e' = e := by injection h
        rcases iterBody_error hb with h1 | h1
        · exact ⟨d, by simp, Or.inl h1⟩
        · exact ⟨d, by simp, Or.inr h1⟩
      · rcases hl : runLoop a st' ds with e' | ⟨stF', evsF'⟩ <;> rw [hl] at h <;>
          dsimp only at h
        · obtain rfl : e' = e := by injection h
          obtain ⟨d2, hd2, h2⟩ := ih st' _ hl
          exact ⟨d2, by simp [hd2], h2⟩
        · cases h
    · rw [if_neg hg] at h
      cases h

/-- Every event of a successful iteration belongs to the loop stages. -/
lemma iterBody_evs_phase {a : Args} {st : LoopState} {d : IterData}
    {st' : LoopState} {evs : List Ev}
    (h : iterBody a st d = .ok (st', evs)) :
    ∀ e ∈ evs, 10 ≤ phase e := by
  obtain ⟨p0, ps, rews, hp, hr, hst', hevs⟩ := iterBody_ok h
  subst hevs
  intro e he
  simp only [List.append_assoc, List.mem_append] at he
  rcases he with he | he | he | he
  · simp only [List.mem_cons, List.not_mem_nil, or_false] at he
    rcases he with rfl | rfl <;> simp [phase]
  · split at he <;>
      simp only [List.mem_cons, List.not_mem_nil, or_false] at he <;>
      subst he <;> simp [phase]
  · split at he
    · simp only [List.mem_cons, List.not_mem_nil, or_false] at he
      subst he; simp [phase]
    · simp at he
  · split at he
    · rcases List.mem_append.1 he with he | he
      · split at he
        · obtain ⟨x, _, rfl⟩ := List.mem_map.1 he; simp [phase]
        · simp at he
      · obtain ⟨x, _, rfl⟩ := List.mem_map.1 he; simp [phase]
    · simp at he

/-- Every event of a loop run belongs to the loop stages. -/
lemma runLoop_evs_phase {a : Args} :
    ∀ (ds : List IterData) (st stF : LoopState) (evs : List Ev),
      runLoop a st ds = .ok (stF, evs) → ∀ e ∈ evs, 10 ≤ phase e := by
  intro ds
  induction ds with
  | nil =>
    intro st stF evs h
    simp only [runLoop, Except.ok.injEq, Prod.mk.injEq] at h
    obtain ⟨rfl, rfl⟩ := h
    simp
  | cons d ds ih =>
    intro st stF evs h e he
    by_cases hg : st.total_epi < a.max_episodes
    · obtain ⟨st', ievs, evsF, hb, hl, rfl⟩ := runLoop_cons_ok hg h
      rcases List.mem_append.1 he with he | he
      · exact iterBody_evs_phase hb e he
      · exact ih st' stF evsF hl e he
    · rw [runLoop, if_neg hg] at h
      simp only [Except.ok.injEq, Prod.mk.injEq] at h
      obtain ⟨rfl, rfl⟩ := h
      simp at he

/-- A process-group event in the setup trace carries exactly the nccl
backend, the CLI world size and the CLI rank. -/
lemma setup_initPG_mem {a : Args} {lE mE : Bool} {b : String} {w r : Int}
    (h : Ev.initProcessGroup b w r ∈ setupEvs a lE mE) :
    b = "nccl" ∧ w = a.world_size ∧ r = a.local_rank := by
  cases lE <;> cases mE <;> by_cases h0 : a.local_rank = 0 <;>
    simp [setupEvs, h0] at h <;>
    obtain ⟨h1, h2, h3⟩ := h <;> exact ⟨h1, h2, by omega⟩

/-- An optimizer-construction event in the setup trace carries exactly
the CLI rank and world size. -/
lemma setup_optim_mem {a : Args} {lE mE : Bool} {s : String} {r w : Int}
    {lr : ℚ} (h : Ev.optimCreate s r w lr ∈ setupEvs a lE mE) :
    r = a.local_rank ∧ w = a.world_size := by
  cases lE <;> cases mE <;> by_cases h0 : a.local_rank = 0 <;>
    simp [setupEvs, h0] at h <;>
    rcases h with ⟨h1, h2, h3, h4⟩ | ⟨h1, h2, h3, h4⟩ <;> exact ⟨by omega, h3⟩

/-- The iteration's mean reward is the mean of its rewards list. -/
lemma iterMeanRew_eq {d : IterData} {rews : List ℚ} {r : ℚ}
    (hrews : iterRewards d.paths = .ok rews) (hr : iterMeanRew d = .ok r) :
    r = meanQ rews := by
  rw [iterMeanRew, hrews] at hr
  simp only [Except.map] at hr
  injection hr with hr
  exact hr.symm

/-- A rank-0 iteration always writes the four most-recent
checkpoints. -/
lemma iterBody_lastSave_mem {a : Args} {st : LoopState} {d : IterData}
    {st' : LoopState} {evs : List Ev} (h0 : a.local_rank = 0)
    (h : iterBody a st d = .ok (st', evs)) :
    ∀ p ∈ lastSaves a, Ev.torchSave p ∈ evs := by
  obtain ⟨p0, ps, rews, hp, hrews, hst', hevs⟩ := iterBody_ok h
  subst hevs
  intro p hp'
  simp only [List.append_assoc, List.mem_append]
  right; right; right
  rw [if_pos h0]
  exact List.mem_append_right _ (List.mem_map_of_mem _ hp')

/-- A rank-0 iteration writes a best-reward checkpoint exactly when the
mean reward beats the incoming running maximum. -/
lemma iterBody_maxSave_iff {a : Args} {st : LoopState} {d : IterData}
    {st' : LoopState} {evs : List Ev} (h0 : a.local_rank = 0)
    (h : iterBody a st d = .ok (st', evs)) {rews : List ℚ}
    (hrews : iterRewards d.paths = .ok rews) :
    ∀ p ∈ maxSaves a, (Ev.torchSave p ∈ evs ↔ st.max_rew < meanQ rews) := by
  obtain ⟨p0, ps, rews', hp, hrews', hst', hevs⟩ := iterBody_ok h
  rw [hrews] at hrews'
  injection hrews' with hh
  subst hh
  subst hevs
  intro p hp'
  constructor
  · intro hm
    by_contra hlt
    simp only [List.append_assoc, List.mem_append] at hm
    rcases hm with hm | hm | hm | hm
    · simp at hm
    · split at hm <;> simp at hm
    · split at hm <;> simp at hm
    · rw [if_pos h0, if_neg hlt] at hm
      simp only [List.nil_append] at hm
      obtain ⟨x, hx, hxx⟩ := List.mem_map.1 hm
      exact maxSaves_ne_lastSaves hp' hx (by injection hxx with hxx
                                             exact hxx.symm)
  · intro hlt
    simp only [List.append_assoc, List.mem_append]
    right; right; right
    rw [if_pos h0, if_pos hlt]
    exact List.mem_append_left _ (List.mem_map_of_mem _ hp')

/-- On rank 0 the running maximum becomes the maximum of its old value
and the iteration's mean reward. -/
lemma iterBody_max_rew_eq {a : Args} {st : LoopState} {d : IterData}
    {st' : LoopState} {evs : List Ev} (h0 : a.local_rank = 0)
    (h : iterBody a st d = .ok (st', evs)) {rews : List ℚ}
    (hrews : iterRewards d.paths = .ok rews) :
    st'.max_rew = max st.max_rew (meanQ rews) := by
  obtain ⟨p0, ps, rews', hp, hrews', hst', hevs⟩ := iterBody_ok h
  rw [hrews] at hrews'
  injection hrews' with hh
  subst hh
  rw [hst']
  by_cases hlt : st.max_rew < meanQ rews
  · simp [h0, hlt, max_eq_right hlt.le]
  · simp [h0, hlt, max_eq_left (not_lt.1 hlt)]

/-- On rank 0 the final running maximum is the fold of `max` over the
executed iterations' mean rewards. -/
lemma runLoop_max_fold {a : Args} (h0 : a.local_rank = 0) :
    ∀ (ds : List IterData) (st stF : LoopState) (evs : List Ev),
      runLoop a st ds = .ok (stF, evs) →
      stF.max_rew = (loopMeanRews a st ds).foldl max st.max_rew := by
  intro ds
  induction ds with
  | nil =>
    intro st stF evs h
    simp only [runLoop, Except.ok.injEq, Prod.mk.injEq] at h
    obtain ⟨rfl, rfl⟩ := h
    simp [loopMeanRews]
  | cons d ds ih =>
    intro st stF evs h
    by_cases hg : st.total_epi < a.max_episodes
    · obtain ⟨st', ievs, evsF, hb, hl, rfl⟩ := runLoop_cons_ok hg h
      obtain ⟨p0, ps, rews, hp, hrews, hst', hevs⟩ := iterBody_ok hb
      have hfold : loopMeanRews a st (d :: ds) =
          meanQ rews :: loopMeanRews a st' ds := by
        rw [loopMeanRews, if_pos hg, hb, hrews]
      rw [hfold]
      simp only [List.foldl_cons]
      rw [ih st' stF evsF hl, iterBody_max_rew_eq h0 hb hrews]
    · rw [runLoop_stop (by omega) (d :: ds)] at h
      simp only [Except.ok.injEq, Prod.mk.injEq] at h
      obtain ⟨rfl, rfl⟩ := h
      simp [loopMeanRews, hg]

/-- The setup trace is sorted by program phase: configuration, then
process-group initialization, then seeding, then device and logger
configuration, then construction. -/
lemma setupEvs_phase_sorted (a : Args) (lE mE : Bool) :
    ((setupEvs a lE mE).map phase).Sorted (· ≤ ·) := by
  cases lE <;> cases mE <;> by_cases h0 : a.local_rank = 0 <;>
    simp [setupEvs, phase, h0]

/-- Every setup event belongs to a pre-loop phase. -/
lemma setup_phase_lt {a : Args} {lE mE : Bool} :
    ∀ e ∈ setupEvs a lE mE, phase e < 10 := by
  intro e he
  have hall : ∀ x ∈ (setupEvs a lE mE).map phase, x < 10 := by
    cases lE <;> cases mE <;> by_cases h0 : a.local_rank = 0 <;>
      simp [setupEvs, phase, h0]
  exact hall _ (List.mem_map_of_mem _ he)

/-- The events of one iteration are sorted by loop stage: sample, then
preprocess, then the PPO update, then logging, then checkpointing. -/
lemma iterBody_evs_sorted {a : Args} {st : LoopState} {d : IterData}
    {st' : LoopState} {evs : List Ev}
    (h : iterBody a st d = .ok (st', evs)) :
    (evs.map phase).Sorted (· ≤ ·) := by
  obtain ⟨p0, ps, rews, hp, hrews, hst', hevs⟩ := iterBody_ok h
  subst hevs
  by_cases hc : a.ppo_type = "clip" <;> by_cases h0 : a.local_rank = 0 <;>
    by_cases hm : st.max_rew < meanQ rews <;>
    simp [phase, hc, h0, hm, maxSaves, lastSaves]

/-- The disk writes of one iteration are checkpoint files. -/
lemma iterBody_produced {a : Args} {st : LoopState} {d : IterData}
    {st' : LoopState} {evs : List Ev}
    (h : iterBody a st d = .ok (st', evs)) :
    ∀ x ∈ producedPaths evs, x ∈ maxSaves a ++ lastSaves a := by
  obtain ⟨p0, ps, rews, hp, hrews, hst', hevs⟩ := iterBody_ok h
  subst hevs
  intro x hx
  obtain ⟨e, he, hpe⟩ := List.mem_filterMap.1 hx
  simp only [List.append_assoc, List.mem_append] at he
  rcases he with he | he | he | he
  · simp only [List.mem_cons, List.not_mem_nil, or_false] at he
    rcases he with rfl | rfl <;> simp [producedPath] at hpe
  · split at he <;>
      simp only [List.mem_cons, List.not_mem_nil, or_false] at he <;>
      subst he <;> simp [producedPath] at hpe
  · split at he
    · simp only [List.mem_cons, List.not_mem_nil, or_false] at he
      subst he; simp [producedPath] at hpe
    · simp at he
  · split at he
    · rcases List.mem_append.1 he with he | he
      · split at he
        · obtain ⟨y, hy, rfl⟩ := List.mem_map.1 he
          simp only [producedPath, Option.some.injEq] at hpe
          exact List.mem_append_left _ (hpe ▸ hy)
        · simp at he
      · obtain ⟨y, hy, rfl⟩ := List.mem_map.1 he
        simp only [producedPath, Option.some.injEq] at hpe
        exact List.mem_append_right _ (hpe ▸ hy)
    · simp at he

/-- The disk writes of a loop run are checkpoint files. -/
lemma runLoop_produced {a : Args} :
    ∀ (ds : List IterData) (st stF : LoopState) (evs : List Ev),
      runLoop a st ds = .ok (stF, evs) →
      ∀ x ∈ producedPaths evs, x ∈ maxSaves a ++ lastSaves a := by
  intro ds
  induction ds with
  | nil =>
    intro st stF evs h
    simp only [runLoop, Except.ok.injEq, Prod.mk.injEq] at h
    obtain ⟨rfl, rfl⟩ := h
    simp [producedPaths]
  | cons d ds ih =>
    intro st stF evs h x hx
    by_cases hg : st.total_epi < a.max_episodes
    · obtain ⟨st', ievs, evsF, hb, hl, rfl⟩ := runLoop_cons_ok hg h
      rw [producedPaths, List.filterMap_append] at hx
      rcases List.mem_append.1 hx with hx | hx
      · exact iterBody_produced hb x hx
      · exact ih st' stF evsF hl x hx
    · rw [runLoop, if_neg hg] at h
      simp only [Except.ok.injEq, Prod.mk.injEq] at h
      obtain ⟨rfl, rfl⟩ := h
      simp [producedPaths] at hx

/-- The disk writes of the setup phase are the log directory, the
arguments JSON, the models directory and the progress CSV. -/
lemma setup_produced {a : Args} {lE mE : Bool} :
    ∀ x ∈ producedPaths (setupEvs a lE mE),
      x = a.log ∨ x = pjoin a.log "args.json" ∨
      x = pjoin a.log "models" ∨ x = pjoin a.log "progress.csv" := by
  intro x hx
  cases lE <;> cases mE <;> by_cases h0 : a.local_rank = 0 <;>
    simp [setupEvs, producedPaths, producedPath, h0] at hx <;> tauto

/-- A `numpy` seeding event in the setup trace carries the derived
seed. -/
lemma setup_numpySeed_mem {a : Args} {lE mE : Bool} {s : Int}
    (h : Ev.numpySeed s ∈ setupEvs a lE mE) :
    s = derivedSeed a.seed a.local_rank := by
  cases lE <;> cases mE <;> by_cases h0 : a.local_rank = 0 <;>
    simp [setupEvs, h0] at h <;> first | (rw [h0]; exact h) | exact h

/-- A `torch` seeding event in the setup trace carries the derived
seed. -/
lemma setup_torchSeed_mem {a : Args} {lE mE : Bool} {s : Int}
    (h : Ev.torchManualSeed s ∈ setupEvs a lE mE) :
    s = derivedSeed a.seed a.local_rank := by
  cases lE <;> cases mE <;> by_cases h0 : a.local_rank = 0 <;>
    simp [setupEvs, h0] at h <;> first | (rw [h0]; exact h) | exact h

/-- An environment seeding event in the setup trace carries the derived
seed. -/
lemma setup_envSeed_mem {a : Args} {lE mE : Bool} {s : Int}
    (h : Ev.envSeed s ∈ setupEvs a lE mE) :
    s = derivedSeed a.seed a.local_rank := by
  cases lE <;> cases mE <;> by_cases h0 : a.local_rank = 0 <;>
    simp [setupEvs, h0] at h <;> first | (rw [h0]; exact h) | exact h

/-- A sampler-construction event in the setup trace carries the derived
seed. -/
lemma setup_sampler_mem {a : Args} {lE mE : Bool} {m n s : Int}
    (h : Ev.samplerCreate m n s ∈ setupEvs a lE mE) :
    s = derivedSeed a.seed a.local_rank := by
  cases lE <;> cases mE <;> by_cases h0 : a.local_rank = 0 <;>
    simp [setupEvs, h0] at h <;>
    first | (rw [h0]; exact h.2.2) | exact h.2.2

/-! ## The claims -/

/-- C4: the script is a single linear procedure: every successful run's
trace is the setup trace followed by loop events only; the setup trace
is ordered configuration → distributed initialization → construction
of environment, policy, value function, sampler and optimizers; and
every iteration's trace is ordered sampling → GAE preprocessing → PPO
update → logging → checkpointing. -/
theorem claim_C4 (a : Args) (lE mE : Bool) (ds : List IterData)
    (evs : List Ev) (h : runScript a lE mE ds = .ok evs) :
    (∃ levs, evs = setupEvs a lE mE ++ levs ∧
       ∀ e ∈ levs, 10 ≤ phase e) ∧
    ((setupEvs a lE mE).map phase).Sorted (· ≤ ·) ∧
    (∀ e ∈ setupEvs a lE mE, phase e < 10) ∧
    (∀ st d st' ievs, iterBody a st d = .ok (st', ievs) →
       (ievs.map phase).Sorted (· ≤ ·)) := by
  obtain ⟨stF, levs, hl, rfl⟩ := runScript_ok h
  refine ⟨⟨levs, rfl, runLoop_evs_phase ds (initState a) stF levs hl⟩,
    setupEvs_phase_sorted a lE mE, setup_phase_lt, ?_⟩
  intro st d st' ievs hb
  exact iterBody_evs_sorted hb

/-- C4 witness: the default-argument run decomposes into its setup
trace and loop events, with the setup trace phase-sorted. -/
theorem claim_C4_witness :
    (∃ levs, c7trace = setupEvs defaultArgs false false ++ levs ∧
       ∀ e ∈ levs, 10 ≤ phase e) ∧
    ((setupEvs defaultArgs false false).map phase).Sorted (· ≤ ·) := by
  have h := claim_C4 defaultArgs false false [] c7trace
    (by simp [runScript, runLoop, c7trace])
  exact ⟨h.1, h.2.1⟩

/-- C1: on every completed rank-0 iteration the four most-recent
checkpoint files (`pol_last.pkl`, `vf_last.pkl`, `optim_pol_last.pkl`,
`optim_vf_last.pkl` under `<log>/models`) are written, and the four
best-reward checkpoint files (`pol_max.pkl`, `vf_max.pkl`,
`optim_pol_max.pkl`, `optim_vf_max.pkl`) are written exactly when the
iteration's mean reward strictly exceeds the running maximum reward. -/
theorem claim_C1 (a : Args) (st : LoopState) (d : IterData)
    (st' : LoopState) (evs : List Ev) (r : ℚ)
    (h0 : a.local_rank = 0) (h : iterBody a st d = .ok (st', evs))
    (hr : iterMeanRew d = .ok r) :
    (∀ p ∈ lastSaves a, Ev.torchSave p ∈ evs) ∧
    (∀ p ∈ maxSaves a, (Ev.torchSave p ∈ evs ↔ st.max_rew < r)) := by
  obtain ⟨p0, ps, rews, hp, hrews, hst', hevs⟩ := iterBody_ok h
  obtain rfl : r = meanQ rews := iterMeanRew_eq hrews hr
  exact ⟨iterBody_lastSave_mem h0 h, iterBody_maxSave_iff h0 h hrews⟩

/-- C1 witness: the first default-argument iteration writes all four
most-recent checkpoints, and writes the best-reward checkpoints since
the mean reward 1 beats the initial maximum. -/
theorem claim_C1_witness :
    (∀ p ∈ lastSaves defaultArgs, Ev.torchSave p ∈ w1evs) ∧
    (∀ p ∈ maxSaves defaultArgs,
       (Ev.torchSave p ∈ w1evs ↔ (initState defaultArgs).max_rew < 1)) :=
  claim_C1 defaultArgs (initState defaultArgs) d1 w1st w1evs 1 rfl
    (by norm_num [iterBody, iterRewards, pathMeanRew, doneInds, meanQ, d1,
      defaultArgs, initState, maxSaves, lastSaves, w1st, w1evs,
      show List.take 1 [(1:ℚ), 1] = [1] from rfl])
    (by norm_num [iterMeanRew, iterRewards, pathMeanRew, doneInds, meanQ,
      d1, Except.map, show List.take 1 [(1:ℚ), 1] = [1] from rfl])

/-- C9: on rank 0 the running maximum reward is non-decreasing, after
each iteration it is the maximum of its previous value and the
iteration's mean reward — hence over a run it is the fold of `max`
over all observed mean rewards starting from -1e6 — and the
best-reward checkpoints are written exactly in the iterations where it
strictly increases. -/
theorem claim_C9 (a : Args) (h0 : a.local_rank = 0) :
    (∀ st d st' evs r, iterBody a st d = .ok (st', evs) →
       iterMeanRew d = .ok r →
       st'.max_rew = max st.max_rew r ∧ st.max_rew ≤ st'.max_rew ∧
       (∀ p ∈ maxSaves a,
          (Ev.torchSave p ∈ evs ↔ st.max_rew < st'.max_rew))) ∧
    (∀ st ds stF evs, runLoop a st ds = .ok (stF, evs) →
       stF.max_rew = (loopMeanRews a st ds).foldl max st.max_rew ∧
       st.max_rew ≤ stF.max_rew) := by
  constructor
  · intro st d st' evs r h hrm
    obtain ⟨p0, ps, rews, hp, hrews, hst', hevs⟩ := iterBody_ok h
    obtain rfl : r = meanQ rews := iterMeanRew_eq hrews hrm
    have hmax : st'.max_rew = max st.max_rew (meanQ rews) :=
      iterBody_max_rew_eq h0 h hrews
    refine ⟨hmax, by rw [hmax]; exact le_max_left _ _, ?_⟩
    intro p hp'
    rw [iterBody_maxSave_iff h0 h hrews p hp', hmax]
    simp [lt_max_iff]
  · intro st ds stF evs h
    have hf := runLoop_max_fold h0 ds st stF evs h
    exact ⟨hf, hf ▸ le_foldl_max _ _⟩

/-- C9 witness: after the first default-argument iteration the running
maximum is `max (-1e6) 1 = 1`, it did not decrease, and over the
one-iteration run it equals the fold of `max` over the observed mean
rewards. -/
theorem claim_C9_witness :
    w1st.max_rew = max (initState defaultArgs).max_rew 1 ∧
    (initState defaultArgs).max_rew ≤ w1st.max_rew ∧
    w1st.max_rew = (loopMeanRews defaultArgs (initState defaultArgs)
      [d1]).foldl max (initState defaultArgs).max_rew := by
  have hb : iterBody defaultArgs (initState defaultArgs) d1 =
      .ok (w1st, w1evs) := by
    norm_num [iterBody, iterRewards, pathMeanRew, doneInds, meanQ, d1,
      defaultArgs, initState, maxSaves, lastSaves, w1st, w1evs,
      show List.take 1 [(1:ℚ), 1] = [1] from rfl]
  have hm : iterMeanRew d1 = .ok 1 := by
    norm_num [iterMeanRew, iterRewards, pathMeanRew, doneInds, meanQ, d1,
      Except.map, show List.take 1 [(1:ℚ), 1] = [1] from rfl]
  have hl : runLoop defaultArgs (initState defaultArgs) [d1] =
      .ok (w1st, w1evs) := by
    norm_num [runLoop, iterBody, iterRewards, pathMeanRew, doneInds, meanQ,
      d1, defaultArgs, initState, maxSaves, lastSaves, w1st, w1evs,
      show List.take 1 [(1:ℚ), 1] = [1] from rfl]
  have h1 := (claim_C9 defaultArgs rfl).1 (initState defaultArgs) d1
    w1st w1evs 1 hb hm
  have h2 := (claim_C9 defaultArgs rfl).2 (initState defaultArgs) [d1]
    w1st w1evs hl
  exact ⟨h1.1, h1.2.1, h2.1⟩

/-- C3: the training loop is bounded by the episode budget: an
iteration runs only while `total_epi` is strictly below
`--max_episodes`, each iteration adds `data.num_epi` to `total_epi`,
and if every iteration contributes at least one episode the loop stops
with `total_epi` at least `max_episodes`. -/
theorem claim_C3 (a : Args) :
    (∀ st d st' evs, iterBody a st d = .ok (st', evs) →
       st'.total_epi = st.total_epi + d.num_epi) ∧
    (∀ st ds, a.max_episodes ≤ st.total_epi →
       runLoop a st ds = .ok (st, [])) ∧
    (∀ ds stF evs, (∀ d ∈ ds, 1 ≤ d.num_epi) →
       a.max_episodes ≤ (ds.length : Int) →
       runLoop a (initState a) ds = .ok (stF, evs) →
       a.max_episodes ≤ stF.total_epi) := by
  refine ⟨?_, ?_, ?_⟩
  · intro st d st' evs h
    obtain ⟨p0, ps, rews, hp, hr, hst', hevs⟩ := iterBody_ok h
    rw [hst']
  · intro st ds h; exact runLoop_stop h ds
  · intro ds stF evs hall hlen h
    rcases runLoop_epi_bound ds (initState a) stF evs hall h with h2 | h2
    · exact h2
    · simp only [initState] at h2; omega

/-- C3 witness: with a budget of two episodes and three one-episode
iterations on offer, the loop stops having accumulated at least two
episodes. -/
theorem claim_C3_witness : argsSmall.max_episodes ≤ w3st.total_epi :=
  (claim_C3 argsSmall).2.2 [d1, d1, d1] w3st w3evs
    (by decide) (by decide)
    (by norm_num [runLoop, iterBody, iterRewards, pathMeanRew, doneInds,
      meanQ, d1, argsSmall, defaultArgs, initState, w3st, w3evs,
      show List.take 1 [(1:ℚ), 1] = [1] from rfl])

/-- C5: the script performs no input validation, retry, or recovery of
its own: for every combination of parsed CLI values the setup phase
completes unconditionally, and a run can only fail because of the
sampled rollout data (an empty path list or a path whose reward
computation raises), never because of a CLI value. -/
theorem claim_C5 (a : Args) (lE mE : Bool) :
    runScript a lE mE [] = .ok (setupEvs a lE mE) ∧
    (∀ ds e, runScript a lE mE ds = .error e →
       ∃ d ∈ ds, d.paths = [] ∨ ∃ p ∈ d.paths, pathMeanRew p = .error e) := by
  constructor
  · simp [runScript, runLoop]
  · intro ds e h
    rw [runScript] at h
    rcases hl : runLoop a (initState a) ds with e' | ⟨stF, levs⟩ <;>
      rw [hl] at h <;> dsimp only at h
    · obtain rfl : e' = e := by injection h
      exact runLoop_error_mem ds (initState a) _ hl
    · cases h

/-- C5 witness: with the default arguments the setup phase completes,
and the run that fails on an empty path list is blamed on that data. -/
theorem claim_C5_witness :
    runScript defaultArgs false false [] =
      .ok (setupEvs defaultArgs false false) ∧
    ∃ d ∈ [dBad], d.paths = [] ∨
      ∃ p ∈ d.paths, pathMeanRew p = .error .indexError :=
  ⟨(claim_C5 defaultArgs false false).1,
   (claim_C5 defaultArgs false false).2 [dBad] .indexError
     (by simp [runScript, runLoop, iterBody, dBad, initState, defaultArgs])⟩

/-- C2: the `--ppo_type` flag accepts exactly the values `clip` and
`kl` and fails to parse otherwise; an iteration with `ppo_type = clip`
performs the clip update with the clip parameter and leaves `kl_beta`
unchanged, and otherwise performs the KL update with the current
`kl_beta` and the KL target and replaces `kl_beta` by the result's
`new_kl_beta`. -/
theorem claim_C2 :
    (∀ s, (∃ t, parsePpoType s = .ok t) ↔ s = "clip" ∨ s = "kl") ∧
    (∀ s, s ≠ "clip" → s ≠ "kl" →
       parsePpoType s = .error "invalid choice") ∧
    (∀ a st d st' evs, iterBody a st d = .ok (st', evs) →
       (a.ppo_type = "clip" →
          Ev.ppoClipTrain a.clip_param ∈ evs ∧
          (∀ x y, Ev.ppoKlTrain x y ∉ evs) ∧
          st'.kl_beta = st.kl_beta) ∧
       (a.ppo_type ≠ "clip" →
          Ev.ppoKlTrain st.kl_beta a.kl_targ ∈ evs ∧
          (∀ x, Ev.ppoClipTrain x ∉ evs) ∧
          st'.kl_beta = d.new_kl_beta)) := by
  refine ⟨?_, ?_, ?_⟩
  · intro s
    by_cases hc : s ∈ ["clip", "kl"] <;>
      simp only [List.mem_cons, List.not_mem_nil, or_false] at hc <;>
      simp [parsePpoType, hc]
  · intro s h1 h2
    simp [parsePpoType, h1, h2]
  · intro a st d st' evs h
    obtain ⟨p0, ps, rews, hp, hr, hst', hevs⟩ := iterBody_ok h
    subst hevs
    constructor <;> intro hc
    · refine ⟨by simp [hc], ?_, by simp [hst', hc]⟩
      intro x y
      simp [hc, maxSaves, lastSaves, List.mem_append]
    · refine ⟨by simp [hc], ?_, by simp [hst', hc]⟩
      intro x
      simp [hc, maxSaves, lastSaves, List.mem_append]

/-- C2 witness: `clip` parses, `adam` fails the parse, and a concrete
clip-variant iteration emits the clip update, no KL update, and keeps
`kl_beta`. -/
theorem claim_C2_witness :
    (∃ t, parsePpoType "clip" = .ok t) ∧
    parsePpoType "adam" = .error "invalid choice" ∧
    (Ev.ppoClipTrain defaultArgs.clip_param ∈ w1evs ∧
     (∀ x y, Ev.ppoKlTrain x y ∉ w1evs) ∧
     w1st.kl_beta = (initState defaultArgs).kl_beta) :=
  ⟨(claim_C2.1 "clip").mpr (Or.inl rfl),
   claim_C2.2.1 "adam" (by decide) (by decide),
   (claim_C2.2.2 defaultArgs (initState defaultArgs) d1 w1st w1evs
     (by norm_num [iterBody, iterRewards, pathMeanRew, doneInds, meanQ, d1,
       defaultArgs, initState, maxSaves, lastSaves, w1st, w1evs,
       show List.take 1 [(1:ℚ), 1] = [1] from rfl])).1 rfl⟩

/-- C6: the script only supplies configuration to the distributed
primitives: a successful run initializes the process group exactly once
per occurrence with the nccl backend and the CLI world size and rank,
passes the same rank and world size unchanged to both optimizers, and
every process-group or optimizer event of the run carries exactly those
CLI values. -/
theorem claim_C6 (a : Args) (lE mE : Bool) (ds : List IterData)
    (evs : List Ev) (h : runScript a lE mE ds = .ok evs) :
    Ev.initProcessGroup "nccl" a.world_size a.local_rank ∈ evs ∧
    Ev.optimCreate "pol" a.local_rank a.world_size a.pol_lr ∈ evs ∧
    Ev.optimCreate "vf" a.local_rank a.world_size a.vf_lr ∈ evs ∧
    (∀ b w r, Ev.initProcessGroup b w r ∈ evs →
       b = "nccl" ∧ w = a.world_size ∧ r = a.local_rank) ∧
    (∀ s r w lr, Ev.optimCreate s r w lr ∈ evs →
       r = a.local_rank ∧ w = a.world_size) := by
  obtain ⟨stF, levs, hl, rfl⟩ := runScript_ok h
  refine ⟨?_, ?_, ?_, ?_, ?_⟩
  · exact List.mem_append_left _ (by simp [setupEvs])
  · exact List.mem_append_left _ (by simp [setupEvs])
  · exact List.mem_append_left _ (by simp [setupEvs])
  · intro b w r hm
    rcases List.mem_append.1 hm with hm | hm
    · exact setup_initPG_mem hm
    · have := runLoop_evs_phase ds (initState a) stF levs hl _ hm
      simp [phase] at this
  · intro s r w lr hm
    rcases List.mem_append.1 hm with hm | hm
    · exact setup_optim_mem hm
    · have := runLoop_evs_phase ds (initState a) stF levs hl _ hm
      simp [phase] at this

/-- C6 witness: the default-argument run contains the process-group
event with the nccl backend, world size 4 and rank 0, and both
optimizer events with the same rank and world size. -/
theorem claim_C6_witness :
    Ev.initProcessGroup "nccl" defaultArgs.world_size
      defaultArgs.local_rank ∈ c7trace ∧
    Ev.optimCreate "pol" defaultArgs.local_rank defaultArgs.world_size
      defaultArgs.pol_lr ∈ c7trace ∧
    Ev.optimCreate "vf" defaultArgs.local_rank defaultArgs.world_size
      defaultArgs.vf_lr ∈ c7trace := by
  have h := claim_C6 defaultArgs false false [] c7trace
    (by simp [runScript, runLoop, c7trace])
  exact ⟨h.1, h.2.1, h.2.2.1⟩

/-- C7 counterexample: the claim that the script produces only
`args.json`, `progress.csv` and the eight checkpoint files is false at
the default arguments on a fresh directory: the run creates the
`garbage` log directory itself, which is none of the listed outputs,
and in addition hands the `garbage/movie` recording directory to the
environment wrapper. -/
theorem claim_C7_counterexample :
    runScript defaultArgs false false [] = .ok c7trace ∧
    "garbage" ∈ producedPaths c7trace ∧
    "garbage" ∉ claimedOutputs defaultArgs ∧
    Ev.envCreate "Pendulum-v0" "garbage/movie" false ∈ c7trace :=
  ⟨by simp [runScript, runLoop, c7trace], by decide, by decide, by decide⟩

/-- C7 amended: every path a successful run creates on disk is one of
the listed outputs (`args.json`, `progress.csv`, the eight checkpoint
files under `<log>/models`) or one of the two directories `<log>` and
`<log>/models` the script creates when missing; in addition the script
passes `<log>/movie` to the environment wrapper as its video-recording
directory, so recordings may appear there. -/
theorem claim_C7_amended (a : Args) (lE mE : Bool) (ds : List IterData)
    (evs : List Ev) (h : runScript a lE mE ds = .ok evs) :
    (∀ x ∈ producedPaths evs,
       x ∈ claimedOutputs a ∨ x = a.log ∨ x = pjoin a.log "models") ∧
    Ev.envCreate a.env_name (pjoin a.log "movie") a.record ∈ evs := by
  obtain ⟨stF, levs, hl, rfl⟩ := runScript_ok h
  constructor
  · intro x hx
    rw [producedPaths, List.filterMap_append] at hx
    rcases List.mem_append.1 hx with hx | hx
    · rcases setup_produced x hx with h1 | h1 | h1 | h1
      · exact Or.inr (Or.inl h1)
      · exact Or.inl (by simp [claimedOutputs, h1])
      · exact Or.inr (Or.inr h1)
      · exact Or.inl (by simp [claimedOutputs, h1])
    · refine Or.inl ?_
      have hm := runLoop_produced ds (initState a) stF levs hl x hx
      simp only [claimedOutputs, List.append_assoc]
      exact List.mem_append_right _ hm
  · exact List.mem_append_left _ (by simp [setupEvs])

/-- C7 amended witness: the default-argument run's disk writes all fall
in the allowed set, and the movie directory is handed to the
environment. -/
theorem claim_C7_amended_witness :
    (∀ x ∈ producedPaths c7trace,
       x ∈ claimedOutputs defaultArgs ∨ x = defaultArgs.log ∨
       x = pjoin defaultArgs.log "models") ∧
    Ev.envCreate defaultArgs.env_name (pjoin defaultArgs.log "movie")
      defaultArgs.record ∈ c7trace :=
  claim_C7_amended defaultArgs false false [] c7trace
    (by simp [runScript, runLoop, c7trace])

/-- C10 counterexample: two distinct ranks with the same CLI seed 0
derive the same effective seed, so "distinct ranks with the same CLI
seed use distinct seeds" is false as stated. -/
theorem claim_C10_counterexample :
    derivedSeed 0 0 = derivedSeed 0 1 ∧ (0 : Int) ≠ 1 :=
  ⟨by norm_num [derivedSeed], by decide⟩

/-- C10 amended: the effective seed is the CLI seed times
`local_rank + 23`; the numpy, torch, environment and sampler seeding
calls all carry this one derived value and only it; the RNG seeding
happens before any component construction in the setup trace; and
distinct ranks with the same nonzero CLI seed derive distinct seeds. -/
theorem claim_C10_amended (a : Args) (lE mE : Bool) :
    Ev.numpySeed (derivedSeed a.seed a.local_rank) ∈ setupEvs a lE mE ∧
    Ev.torchManualSeed (derivedSeed a.seed a.local_rank) ∈
      setupEvs a lE mE ∧
    Ev.envSeed (derivedSeed a.seed a.local_rank) ∈ setupEvs a lE mE ∧
    Ev.samplerCreate a.max_samples_per_iter a.num_parallel
      (derivedSeed a.seed a.local_rank) ∈ setupEvs a lE mE ∧
    (∀ s, Ev.numpySeed s ∈ setupEvs a lE mE →
       s = derivedSeed a.seed a.local_rank) ∧
    (∀ s, Ev.torchManualSeed s ∈ setupEvs a lE mE →
       s = derivedSeed a.seed a.local_rank) ∧
    (∀ s, Ev.envSeed s ∈ setupEvs a lE mE →
       s = derivedSeed a.seed a.local_rank) ∧
    (∀ m n s, Ev.samplerCreate m n s ∈ setupEvs a lE mE →
       s = derivedSeed a.seed a.local_rank) ∧
    (∀ (i j : Nat) (hi : i < (setupEvs a lE mE).length)
       (hj : j < (setupEvs a lE mE).length),
       phase ((setupEvs a lE mE)[i]) = 2 →
       phase ((setupEvs a lE mE)[j]) = 4 → i < j) ∧
    (∀ s r₁ r₂ : Int, s ≠ 0 → r₁ ≠ r₂ →
       derivedSeed s r₁ ≠ derivedSeed s r₂) := by
  refine ⟨by simp [setupEvs], by simp [setupEvs], by simp [setupEvs],
    by simp [setupEvs], fun s h => setup_numpySeed_mem h,
    fun s h => setup_torchSeed_mem h, fun s h => setup_envSeed_mem h,
    fun m n s h => setup_sampler_mem h, ?_, ?_⟩
  · intro i j hi hj h2 h4
    by_contra hij
    push_neg at hij
    rcases Nat.eq_or_lt_of_le hij with heq | hlt
    · subst heq
      exact absurd (h2.symm.trans h4) (by decide)
    · have hp := List.pairwise_iff_getElem.1 (setupEvs_phase_sorted a lE mE)
        j i (by simpa using hj) (by simpa using hi) hlt
      simp only [List.getElem_map] at hp
      have h42 : (4 : Nat) ≤ 2 := by rw [← h4, ← h2]; exact hp
      exact absurd h42 (by decide)
  · intro s r₁ r₂ hs hr h
    apply hr
    simp only [derivedSeed] at h
    have h' := mul_left_cancel₀ hs h
    omega

/-- C10 amended witness: the derived seed of the default run appears in
the numpy seeding event, and with the nonzero seed 1 ranks 0 and 1
derive distinct seeds. -/
theorem claim_C10_amended_witness :
    Ev.numpySeed (derivedSeed defaultArgs.seed defaultArgs.local_rank) ∈
      setupEvs defaultArgs false false ∧
    derivedSeed 1 0 ≠ derivedSeed 1 1 :=
  ⟨(claim_C10_amended defaultArgs false false).1,
   (claim_C10_amended defaultArgs false false).2.2.2.2.2.2.2.2.2 1 0 1
     (by decide) (by decide)⟩

/-- C8: the per-path mean-reward computation is only defined for paths
whose `dones` mask contains at least two entries equal to 1: a path
with exactly one done flag causes division by zero, and a path with no
done flag causes an out-of-bounds index on the empty index array. -/
theorem claim_C8 (p : Path) :
    ((∃ r, pathMeanRew p = .ok r) ↔ 2 ≤ p.dones.count 1) ∧
    (p.dones.count 1 = 1 → pathMeanRew p = .error .divByZero) ∧
    (p.dones.count 1 = 0 → pathMeanRew p = .error .indexError) := by
  have hlen := doneInds_length p.dones
  rcases hL : doneInds p.dones with _ | ⟨i0, rest⟩ <;> rw [hL] at hlen <;>
    simp only [List.length_nil, List.length_cons] at hlen
  · refine ⟨?_, fun h => ?_, fun _ => ?_⟩
    · simp [pathMeanRew, hL]; omega
    · omega
    · simp [pathMeanRew, hL]
  · by_cases hr : rest.length = 0
    · refine ⟨?_, fun _ => ?_, fun h => ?_⟩
      · simp [pathMeanRew, hL, hr]; omega
      · simp [pathMeanRew, hL, hr]
      · omega
    · refine ⟨?_, fun h => ?_, fun h => ?_⟩
      · simp [pathMeanRew, hL, hr]; omega
      · omega
      · omega

/-- C8 witness: a path with two done flags has a defined mean reward;
one done flag raises `ZeroDivisionError`; none raises `IndexError`. -/
theorem claim_C8_witness :
    (∃ r, pathMeanRew { dones := [1, 1], rews := [1, 1] } = .ok r) ∧
    pathMeanRew { dones := [1], rews := [1, 1] } = .error .divByZero ∧
    pathMeanRew { dones := [], rews := [1, 1] } = .error .indexError :=
  ⟨(claim_C8 _).1.mpr (by decide),
   (claim_C8 _).2.1 (by decide),
   (claim_C8 _).2.2 (by decide)⟩

end RunPPO
